import Mathlib

/-!
Shallow embedding of `Bryozoan.py` (resistive-network model of a bryozoan
colony) over exact rationals.

Modelling conventions:
* Python/NumPy float vectors become `List ℚ`; NumPy 2-d arrays and sparse
  matrices become row-major `List (List ℚ)`.
* The floating-point power `x ** e` (used with fractional exponents in
  `dCdt_default`) is transcendental, so it is abstracted as an explicit
  function parameter `pw : ℚ → ℚ → ℚ`; no theorem below depends on its
  values.
* `scipy.sparse.linalg.bicgstab` is an iterative solver returning a pair
  `(solution, info)`; it is abstracted as a function parameter of type
  `LinSolver` receiving the assembled system matrix, the right-hand side and
  the optional warm start `x0`, exactly as the source passes them.  Where a
  claim needs the solver to have converged, that appears as an explicit
  hypothesis on the returned vector.
* `numpy.log` / `numpy.exp` in `UpdateColony` are abstracted as parameters
  `flog fexp : ℚ → ℚ`.
* `scipy.integrate.ode` with the `dopri5` integrator is modelled as the
  explicit Dormand–Prince 5(4) Runge–Kutta step (its Butcher tableau is
  rational) iterated over an arbitrary finite list of step sizes, which
  stands for whatever steps the adaptive controller takes on `[0, tmax]`.
* Plotting attributes (`xs`, `ys`, `ysjig`) and the operators `Adjacency`,
  `UpperAdjacency`, `Laplacian` (built in `__init__` but read by no method
  involved in any claim) are omitted from the `Colony` record.
-/

namespace Bryozoan

/-! ### Vector and matrix helpers (dense model of the NumPy operations) -/

/-- Dot product of two rational vectors (entrywise product, then sum). -/
def dotL (u v : List ℚ) : ℚ := (List.zipWith (· * ·) u v).sum

/-- Matrix–vector product: one dot product per row. -/
def matVec (A : List (List ℚ)) (x : List ℚ) : List ℚ := A.map (fun r => dotL r x)

/-- Row scaling `diag(C) * A`: row `i` of `A` multiplied by `C i`. -/
def scaleRows (C : List ℚ) (A : List (List ℚ)) : List (List ℚ) :=
  List.zipWith (fun c r => r.map (fun a => c * a)) C A

/-- Column `j` of a row-major rectangular matrix. -/
def getCol (A : List (List ℚ)) (j : ℕ) : List ℚ := A.map (fun r => r.getD j 0)

/-- Transpose of a row-major rectangular matrix. -/
def transposeM (A : List (List ℚ)) : List (List ℚ) :=
  (List.range (A.headD []).length).map (fun j => getCol A j)

/-- Matrix product, via dot products of rows of `A` with columns of `B`. -/
def matMul (A B : List (List ℚ)) : List (List ℚ) :=
  A.map (fun r => (transposeM B).map (fun col => dotL r col))

/-- Vector addition (`numpy +` on equal-length vectors). -/
def vadd (u v : List ℚ) : List ℚ := List.zipWith (· + ·) u v

/-- Scalar multiple of a vector. -/
def smul (a : ℚ) (v : List ℚ) : List ℚ := v.map (fun x => a * x)

/-- Model of `numpy.arange(a, b, step)` on naturals (`step > 0`). -/
def arangeStep (a b step : ℕ) : List ℕ :=
  (List.range ((b - a + step - 1) / step)).map (fun k => a + k * step)

/-- Model of `numpy.arange(a, b)`. -/
def arange (a b : ℕ) : List ℕ := arangeStep a b 1

/-- Model of `numpy.delete(xs, pos)`: drop the elements whose position lies
in `pos`, keeping the order of the rest. -/
def npdelete (xs : List ℕ) (pos : List ℕ) : List ℕ :=
  ((List.range xs.length).filter (fun i => ¬ i ∈ pos)).map (fun i => xs.getD i 0)

/-- Model of `sparse.diags([-1]*N, 0)`: the `N × N` matrix `-I`. -/
def negIdent (N : ℕ) : List (List ℚ) :=
  (List.range N).map (fun i => (List.range N).map (fun j => if j = i then (-1 : ℚ) else 0))

/-! ### The feedback law `dCdt_default` -/

/-- Parameter dictionary for the feedback law: the source looks up the keys
`r`, `b`, `z`, `q` in a Python dict; all four are required by
`dCdt_default`, so the dict is modelled as a record. -/
structure FBParams where
  r : ℚ
  b : ℚ
  z : ℚ
  q : ℚ
  deriving DecidableEq

/-- Embedding of `dCdt_default(Cs, dPs, params)`:
`S = abs(b * Cs**z * dPs)` and `dCdt = r * Cs**q * (S - 1)`, both computed
elementwise over the input vectors (NumPy broadcasting on equal-length
vectors becomes `zipWith`); returns the pair `(dCdt, S)` in the source's
order.  `pw` abstracts the floating-point power `**`. -/
def dCdt_default (pw : ℚ → ℚ → ℚ) (Cs dPs : List ℚ) (ps : FBParams) :
    List ℚ × List ℚ :=
  let S := List.zipWith (fun c dp => |ps.b * pw c ps.z * dp|) Cs dPs
  let dCdt := List.zipWith (fun c s => ps.r * pw c ps.q * (s - 1)) Cs S
  (dCdt, S)

/-! ### The `Colony` class -/

/-- State of a `Colony` object: the attributes set by `__init__` that are
read by `setouterconductivities`, `solvecolony` and `UpdateColony`.  The
feedback-parameter dictionaries captured by the `dCdt_inner` / `dCdt_outer`
closures are stored as records (the function itself is the default
`dCdt_default`, which every method below applies through them). -/
structure Colony where
  n : ℕ
  m : ℕ
  rowinds : List ℕ
  colinds : List ℕ
  InnerConduits : List ℚ
  OutflowConduits : List ℚ
  InFlow : List ℚ
  Incidence : List (List ℚ)
  inParams : FBParams
  outParams : FBParams
  deriving DecidableEq

/-- Embedding of `Colony.__init__(nz, mz, InnerConductivity,
OutflowConductivity, Incurrents, dCdt_default, dCdt_in_params,
dCdt_out_params)`: builds the edge lists `rowinds` / `colinds` with the
source's `arange` / `delete` / `concatenate` steps, the internal incidence
matrix (entry `(e, j)` is `+1` if `j = colinds e` plus `-1` if
`j = rowinds e`), and the uniform conductance and inflow vectors. -/
def Colony.init (nz mz : ℕ) (InnerConductivity OutflowConductivity Incurrents : ℚ)
    (inP outP : FBParams) : Colony :=
  let n := nz * 2
  let m := mz
  let N := m * n
  let delpos := arangeStep (n - 1) N n
  let r1 := npdelete (arange 0 N) delpos
  let c1 := npdelete (arange 1 (N + 1)) delpos
  let rowinds := r1 ++ arangeStep 0 ((m - 1) * n + 1) n ++ arangeStep 1 ((m - 1) * n) 2
  let colinds := c1 ++ arangeStep (n - 1) N n ++ arangeStep n N 2
  { n := n
    m := m
    rowinds := rowinds
    colinds := colinds
    InnerConduits := List.replicate rowinds.length InnerConductivity
    OutflowConduits := List.replicate N OutflowConductivity
    InFlow := List.replicate N Incurrents
    Incidence := (List.zip rowinds colinds).map (fun rc =>
      (List.range N).map (fun j =>
        (if j = rc.2 then (1 : ℚ) else 0) + (if j = rc.1 then (-1 : ℚ) else 0)))
    inParams := inP
    outParams := outP }

/-! ### `setouterconductivities` -/

/-- Model of a Python number as it flows through `setouterconductivities`:
the method distinguishes `int` from `float` with `isinstance`, and otherwise
only compares values. -/
inductive PyNum where
  | int (i : ℤ)
  | float (q : ℚ)
  deriving DecidableEq

/-- Numeric value of a `PyNum`. -/
def PyNum.val : PyNum → ℚ
  | .int i => (i : ℚ)
  | .float q => q

/-- Model of `isinstance(x, int)`. -/
def PyNum.isInt : PyNum → Bool
  | .int _ => true
  | .float _ => false

/-- Index actually handed to the NumPy array write (only reached for
nonnegative `int` values). -/
def PyNum.toIdx : PyNum → ℕ
  | .int i => i.toNat
  | .float q => q.num.toNat

/-- Model of Python `max` over a nonempty list of values. -/
def qmax (a : ℚ) (xs : List ℚ) : ℚ := xs.foldl max a

/-- Model of Python `min` over a nonempty list of values. -/
def qmin (a : ℚ) (xs : List ℚ) : ℚ := xs.foldl min a

/-- Observable outcome of a call to `setouterconductivities`:
`ok` — the validation chain passed and the update loop finished (the carried
colony has all writes applied); `rejected` — one of the `print(...); return`
branches fired (the carried colony is the unmodified receiver); `exn` — an
uncaught Python exception escaped the method (the carried colony holds
whatever writes had already been applied in place before the raise). -/
inductive SetResult where
  | ok (c : Colony)
  | rejected (msg : String) (c : Colony)
  | exn (msg : String) (c : Colony)
  deriving DecidableEq

/-- Colony carried by a `SetResult` (the state of `self` after the call). -/
def SetResult.colony : SetResult → Colony
  | .ok c => c
  | .rejected _ c => c
  | .exn _ c => c

/-- Whether the call reported a violated precondition (printed and returned
without acting). -/
def SetResult.isRejected : SetResult → Bool
  | .rejected _ _ => true
  | _ => false

/-- Whether the call completed normally. -/
def SetResult.isOk : SetResult → Bool
  | .ok _ => true
  | _ => false

/-- The update loop `for k in range(len(nodeinds)):
self.OutflowConduits[nodeinds[k]] = NewOuterConductivities[k]`.  A NumPy
write at an index `≥ len` raises `IndexError`; writes already performed
remain in place (the array is mutated element by element). -/
def outflowLoop (c : Colony) : List (ℕ × ℚ) → SetResult
  | [] => .ok c
  | (i, v) :: rest =>
      if i < c.OutflowConduits.length then
        outflowLoop { c with OutflowConduits := c.OutflowConduits.set i v } rest
      else
        .exn "IndexError: index out of bounds" c

/-- Embedding of `Colony.setouterconductivities(nodeinds,
NewOuterConductivities)`.  The source's guard chain, in order: the two
`isinstance(…, list)` checks (always true here, both arguments are lists);
length mismatch; `max(nodeinds) > m*n` (this calls Python `max`, which
raises `ValueError` on an empty list); `min(nodeinds) < 0`; a non-`int`
index; a negative new conductance; otherwise the update loop runs. -/
def setouterconductivities (c : Colony) (nodeinds NewOuterConductivities : List PyNum) :
    SetResult :=
  if NewOuterConductivities.length ≠ nodeinds.length then
    .rejected "List lengths must match. No action taken." c
  else
    match nodeinds with
    | [] => .exn "ValueError: max() arg is an empty sequence" c
    | i0 :: irest =>
      if qmax i0.val (irest.map PyNum.val) > ((c.m * c.n : ℕ) : ℚ) then
        .rejected "At least one node index is >m*n. No action taken." c
      else if qmin i0.val (irest.map PyNum.val) < 0 then
        .rejected "At least one node index is <0. No action taken." c
      else if (i0 :: irest).any (fun i => ¬ i.isInt) then
        .rejected "At least one node index is not an int. No action taken." c
      else if NewOuterConductivities.any (fun v => v.val < 0) then
        .rejected "Conductivities must be floats or ints >=0. No action taken." c
      else
        outflowLoop c
          (List.zip ((i0 :: irest).map PyNum.toIdx) (NewOuterConductivities.map PyNum.val))

/-! ### `solvecolony` -/

/-- Abstraction of `scipy.sparse.linalg.bicgstab(M, b, x0=…)`: receives the
assembled system matrix, the right-hand side, and the optional warm start,
and returns the pair `(solution, info)` (`info = 0` means converged).  The
source indexes the pair with `[0]`. -/
def LinSolver : Type := List (List ℚ) → List ℚ → Option (List ℚ) → List ℚ × ℤ

/-- Dictionary returned by `solvecolony`: the keys `Flows`, `S`, `dCdt` are
present only when the corresponding computation was requested. -/
structure SolveResult where
  Pressures : List ℚ
  conductivityfull : List ℚ
  IncidenceFull : List (List ℚ)
  Flows : Option (List ℚ)
  S : Option (List ℚ)
  dCdt : Option (List ℚ)
  deriving DecidableEq

/-- System matrix `transpose(IncidenceFull) * diags(conductivityfull) *
IncidenceFull` assembled by `solvecolony` and handed to the solver. -/
def sysMatrix (Cfull : List ℚ) (A : List (List ℚ)) : List (List ℚ) :=
  matMul (transposeM A) (scaleRows Cfull A)

/-- Conductance vector used by `solvecolony`: the `conductivityfull` keyword
argument when one was passed, `InnerConduits ++ OutflowConduits` otherwise. -/
def defaultCfull (c : Colony) (kwC : Option (List ℚ)) : List ℚ :=
  match kwC with
  | none => c.InnerConduits ++ c.OutflowConduits
  | some v => v

/-- Extended incidence matrix used by `solvecolony`: the `IncidenceFull`
keyword argument when one was passed, otherwise the internal incidence
matrix stacked over `sparse.diags([-1]*(m*n), 0)` (one extra row per
internal node, `-1` at that node and no explicit outside column). -/
def defaultAfull (c : Colony) (kwA : Option (List (List ℚ))) : List (List ℚ) :=
  match kwA with
  | none => c.Incidence ++ negIdent (c.m * c.n)
  | some a => a

/-- Pressure differences `abs(IncidenceFull * Pressures)` used by the
feedback computation. -/
def dPof (A : List (List ℚ)) (P : List ℚ) : List ℚ :=
  (matVec A P).map (fun x => |x|)

/-- Embedding of `Colony.solvecolony(calcflows, calcdCdt, **kwargs)` with
`kwC`, `kwA`, `kwP` the optional keyword arguments `conductivityfull`,
`IncidenceFull`, `Pressures`.  Steps, as in the source: default the
conductance vector to `InnerConduits ++ OutflowConduits`; default the
extended incidence matrix to `Incidence` stacked over `-I`; call the
iterative solver on `Aᵗ·diag(C)·A` and `InFlow` (passing the warm start
exactly when the `Pressures` keyword was given) and keep component `[0]` of
the returned pair; optionally compute `Flows = diag(C)·A·p`; optionally
split `dP` and the conductance vector at `len(InnerConduits)` (slicing the
keyword vector when one was passed, the attributes otherwise), apply the
feedback law to each part and concatenate.  The guard `not (self.dCdt_inner
is None)` of the source is always true (the closures are set by
`__init__`). -/
def solvecolony (ls : LinSolver) (pw : ℚ → ℚ → ℚ) (c : Colony)
    (calcflows calcdCdt : Bool) (kwC : Option (List ℚ))
    (kwA : Option (List (List ℚ))) (kwP : Option (List ℚ)) : SolveResult :=
  let conductivityfull := defaultCfull c kwC
  let IncidenceFull := defaultAfull c kwA
  let Pressures := (ls (sysMatrix conductivityfull IncidenceFull) c.InFlow kwP).1
  let Flows :=
    if calcflows then some (matVec (scaleRows conductivityfull IncidenceFull) Pressures)
    else none
  if calcdCdt then
    let dP := dPof IncidenceFull Pressures
    let dPinner := dP.take c.InnerConduits.length
    let dPouter := dP.drop c.InnerConduits.length
    let inner :=
      match kwC with
      | none => dCdt_default pw c.InnerConduits dPinner c.inParams
      | some v => dCdt_default pw (v.take c.InnerConduits.length) dPinner c.inParams
    let outer :=
      match kwC with
      | none => dCdt_default pw c.OutflowConduits dPouter c.outParams
      | some v => dCdt_default pw (v.drop c.InnerConduits.length) dPouter c.outParams
    { Pressures := Pressures
      conductivityfull := conductivityfull
      IncidenceFull := IncidenceFull
      Flows := Flows
      S := some (inner.2 ++ outer.2)
      dCdt := some (inner.1 ++ outer.1) }
  else
    { Pressures := Pressures
      conductivityfull := conductivityfull
      IncidenceFull := IncidenceFull
      Flows := Flows
      S := none
      dCdt := none }

/-! ### `UpdateColony` -/

/-- The `solvecolony` call made inside `dlnCdt`, the right-hand side that
`UpdateColony` hands to the integrator: flows off, feedback on, the current
conductances `exp(lnC)` passed as the `conductivityfull` keyword, and the
reference incidence matrix and reference pressures (the latter becoming the
solver's warm start `x0`) passed along. -/
def updateRHSsolve (ls : LinSolver) (pw : ℚ → ℚ → ℚ) (fexp : ℚ → ℚ) (c : Colony)
    (refP : List ℚ) (refA : List (List ℚ)) (lnC : List ℚ) : SolveResult :=
  solvecolony ls pw c false true (some (lnC.map fexp)) (some refA) (some refP)

/-- Embedding of the closure `dlnCdt(t, lnC0)` defined in `UpdateColony`:
`C0 = exp(lnC)`, then `dCdt / C0` with `dCdt` taken from the solve above. -/
def updateRHS (ls : LinSolver) (pw : ℚ → ℚ → ℚ) (fexp : ℚ → ℚ) (c : Colony)
    (refP : List ℚ) (refA : List (List ℚ)) (t : ℚ) (lnC : List ℚ) : List ℚ :=
  List.zipWith (· / ·)
    ((updateRHSsolve ls pw fexp c refP refA lnC).dCdt.getD []) (lnC.map fexp)

/-- One step of the Dormand–Prince 5(4) method (`dopri5`), with its exact
rational Butcher tableau; `f` is the right-hand side, `h` the step size. -/
def dopri5Step (f : ℚ → List ℚ → List ℚ) (t : ℚ) (y : List ℚ) (h : ℚ) : List ℚ :=
  let k1 := f t y
  let k2 := f (t + h / 5) (vadd y (smul h (smul (1 / 5) k1)))
  let k3 := f (t + 3 * h / 10)
    (vadd y (smul h (vadd (smul (3 / 40) k1) (smul (9 / 40) k2))))
  let k4 := f (t + 4 * h / 5)
    (vadd y (smul h (vadd (smul (44 / 45) k1)
      (vadd (smul (-56 / 15) k2) (smul (32 / 9) k3)))))
  let k5 := f (t + 8 * h / 9)
    (vadd y (smul h (vadd (smul (19372 / 6561) k1)
      (vadd (smul (-25360 / 2187) k2)
        (vadd (smul (64448 / 6561) k3) (smul (-212 / 729) k4))))))
  let k6 := f (t + h)
    (vadd y (smul h (vadd (smul (9017 / 3168) k1)
      (vadd (smul (-355 / 33) k2)
        (vadd (smul (46732 / 5247) k3)
          (vadd (smul (49 / 176) k4) (smul (-5103 / 18656) k5)))))))
  vadd y (smul h (vadd (smul (35 / 384) k1)
    (vadd (smul (500 / 1113) k3)
      (vadd (smul (125 / 192) k4)
        (vadd (smul (-2187 / 6784) k5) (smul (11 / 84) k6))))))

/-- The adaptive integration loop of `y.integrate(tmax)`, modelled as the
`dopri5` step iterated over the (arbitrary) finite list `hs` of step sizes
the controller chooses while moving from `t = 0` to `tmax`. -/
def rkIntegrate (f : ℚ → List ℚ → List ℚ) (t0 : ℚ) (y0 : List ℚ) (hs : List ℚ) :
    List ℚ :=
  (hs.foldl (fun st h => (st.1 + h, dopri5Step f st.1 st.2 h)) (t0, y0)).2

/-- Embedding of `Colony.UpdateColony(tmax)`: one reference solve with both
optional computations off; `lnC0 = log(conductivityfull)`; integrate the
right-hand side `dlnCdt` from `t = 0` with `dopri5`; return
`exp(result)`.  `hs` is the step sequence the adaptive stepper uses to reach
`tmax`.  The method reads `self` but assigns no attribute, so it returns
only the new conductance vector. -/
def UpdateColony (ls : LinSolver) (pw : ℚ → ℚ → ℚ) (flog fexp : ℚ → ℚ)
    (c : Colony) (tmax : ℚ) (hs : List ℚ) : List ℚ :=
  let params := solvecolony ls pw c false false none none none
  let lnC0 := params.conductivityfull.map flog
  (rkIntegrate (updateRHS ls pw fexp c params.Pressures params.IncidenceFull)
    0 lnC0 hs).map fexp

/-- Method-call form of `UpdateColony`: a Python call `self.UpdateColony(t)`
yields the state of `self` after the call together with the returned value;
the body assigns no attribute, so the state component is the receiver. -/
def UpdateColonyCall (ls : LinSolver) (pw : ℚ → ℚ → ℚ) (flog fexp : ℚ → ℚ)
    (c : Colony) (tmax : ℚ) (hs : List ℚ) : Colony × List ℚ :=
  (c, UpdateColony ls pw flog fexp c tmax hs)

/-! ### General lemmas about the helpers -/

theorem length_matVec (A : List (List ℚ)) (x : List ℚ) :
    (matVec A x).length = A.length := by
  simp [matVec]

theorem length_dPof (A : List (List ℚ)) (P : List ℚ) :
    (dPof A P).length = A.length := by
  simp [dPof, length_matVec]

theorem getD_zipWith (f : ℚ → ℚ → ℚ) (as bs : List ℚ) (i : ℕ)
    (h1 : i < as.length) (h2 : i < bs.length) :
    (List.zipWith f as bs).getD i 0 = f (as.getD i 0) (bs.getD i 0) := by
  induction as generalizing bs i with
  | nil => simp at h1
  | cons a as ih =>
    cases bs with
    | nil => simp at h2
    | cons b bs =>
      cases i with
      | zero => rfl
      | succ i =>
        simp only [List.zipWith_cons_cons, List.getD_cons_succ]
        exact ih bs i (by simpa using h1) (by simpa using h2)

theorem zipWith_eq_replicate_zero (f : ℚ → ℚ → ℚ) (hf : ∀ a b, f a b = 0)
    (as bs : List ℚ) :
    List.zipWith f as bs = List.replicate (min as.length bs.length) 0 := by
  induction as generalizing bs with
  | nil => simp
  | cons a as ih =>
    cases bs with
    | nil => simp
    | cons b bs =>
      simp [hf, ih, List.replicate_succ, Nat.succ_min_succ]

theorem dCdt_default_r0 (pw : ℚ → ℚ → ℚ) (Cs dPs : List ℚ) (ps : FBParams)
    (hr : ps.r = 0) :
    (dCdt_default pw Cs dPs ps).1
      = List.replicate (min Cs.length dPs.length) 0 := by
  show List.zipWith (fun c s => ps.r * pw c ps.q * (s - 1)) Cs _ = _
  rw [zipWith_eq_replicate_zero (fun c s => ps.r * pw c ps.q * (s - 1))
    (by intro a b; rw [hr]; ring) Cs _]
  congr 1
  simp only [List.length_zipWith]
  omega

theorem smul_replicate_zero (a : ℚ) (n : ℕ) :
    smul a (List.replicate n 0) = List.replicate n 0 := by
  simp [smul]

theorem vadd_replicate_zero (y : List ℚ) :
    vadd y (List.replicate y.length 0) = y := by
  induction y with
  | nil => rfl
  | cons a y ih => simpa [vadd, List.replicate_succ] using ih

theorem vadd_replicate_replicate (n : ℕ) :
    vadd (List.replicate n 0) (List.replicate n 0) = List.replicate n 0 := by
  have h := vadd_replicate_zero (List.replicate n (0 : ℚ))
  simpa using h

theorem zipWith_div_replicate_zero (n : ℕ) (ys : List ℚ) :
    List.zipWith (· / ·) (List.replicate n 0) ys
      = List.replicate (min n ys.length) 0 := by
  induction ys generalizing n with
  | nil => simp
  | cons b bs ih =>
    cases n with
    | zero => simp
    | succ n => simp [List.replicate_succ, ih, Nat.succ_min_succ]

theorem dopri5Step_zero (f : ℚ → List ℚ → List ℚ) (L : ℕ)
    (hf : ∀ t y, y.length = L → f t y = List.replicate L 0)
    (t h : ℚ) (y : List ℚ) (hy : y.length = L) :
    dopri5Step f t y h = y := by
  subst hy
  simp only [dopri5Step]
  simp [hf, smul_replicate_zero, vadd_replicate_replicate, vadd_replicate_zero]

theorem rkIntegrate_zero (f : ℚ → List ℚ → List ℚ) (L : ℕ)
    (hf : ∀ t y, y.length = L → f t y = List.replicate L 0)
    (y0 : List ℚ) (hy : y0.length = L) (t0 : ℚ) (hs : List ℚ) :
    rkIntegrate f t0 y0 hs = y0 := by
  induction hs generalizing t0 with
  | nil => rfl
  | cons h hs ih =>
    have hstep : dopri5Step f t0 y0 h = y0 := dopri5Step_zero f L hf t0 h y0 hy
    simp only [rkIntegrate, List.foldl_cons] at ih ⊢
    rw [hstep]
    exact ih (t0 + h)

/-! ### Structural lemmas about `Colony.init` -/

theorem init_len_eq (nz mz : ℕ) (h1 : 1 ≤ nz) (h2 : 1 ≤ mz)
    (ic oc qv : ℚ) (pI pO : FBParams) :
    (Colony.init nz mz ic oc qv pI pO).rowinds.length
      = (Colony.init nz mz ic oc qv pI pO).colinds.length := by
  obtain ⟨m', rfl⟩ : ∃ m', mz = m' + 1 := ⟨mz - 1, by omega⟩
  obtain ⟨n', rfl⟩ : ∃ n', nz = n' + 1 := ⟨nz - 1, by omega⟩
  simp only [Colony.init, npdelete, arange, arangeStep, List.length_append,
    List.length_map, List.length_range, Nat.div_one,
    Nat.sub_zero, Nat.add_sub_cancel]
  have e1 : m' * ((n' + 1) * 2) = 2 * (m' * (n' + 1)) := by ring
  have e2 : (m' + 1) * ((n' + 1) * 2) = 2 * (m' * (n' + 1)) + (n' + 1) * 2 := by
    ring
  rw [e1, e2]
  generalize m' * (n' + 1) = K
  congr 1
  · congr 1
    have hnum : 2 * K + 1 + (n' + 1) * 2 - 1
        = 2 * K + (n' + 1) * 2 - ((n' + 1) * 2 - 1) + (n' + 1) * 2 - 1 := by
      omega
    rw [hnum]
  · omega

theorem init_InnerConduits_length (nz mz : ℕ) (ic oc qv : ℚ) (pI pO : FBParams) :
    (Colony.init nz mz ic oc qv pI pO).InnerConduits.length
      = (Colony.init nz mz ic oc qv pI pO).rowinds.length := by
  simp [Colony.init]

theorem init_Incidence_length (nz mz : ℕ) (h1 : 1 ≤ nz) (h2 : 1 ≤ mz)
    (ic oc qv : ℚ) (pI pO : FBParams) :
    (Colony.init nz mz ic oc qv pI pO).Incidence.length
      = (Colony.init nz mz ic oc qv pI pO).InnerConduits.length := by
  have h := init_len_eq nz mz h1 h2 ic oc qv pI pO
  simp only [Colony.init, List.length_map, List.length_zip,
    List.length_replicate] at h ⊢
  omega

theorem init_Outflow_length (nz mz : ℕ) (ic oc qv : ℚ) (pI pO : FBParams) :
    (Colony.init nz mz ic oc qv pI pO).OutflowConduits.length
      = (Colony.init nz mz ic oc qv pI pO).m * (Colony.init nz mz ic oc qv pI pO).n := by
  simp [Colony.init]

theorem init_row_length (nz mz : ℕ) (ic oc qv : ℚ) (pI pO : FBParams) :
    ∀ row ∈ (Colony.init nz mz ic oc qv pI pO).Incidence,
      row.length = (Colony.init nz mz ic oc qv pI pO).m * (Colony.init nz mz ic oc qv pI pO).n := by
  intro row hrow
  simp only [Colony.init, List.mem_map] at hrow ⊢
  obtain ⟨rc, _, rfl⟩ := hrow
  simp

theorem negIdent_length (N : ℕ) : (negIdent N).length = N := by
  simp [negIdent]

theorem negIdent_row_length (N : ℕ) : ∀ row ∈ negIdent N, row.length = N := by
  intro row hrow
  simp only [negIdent, List.mem_map] at hrow
  obtain ⟨i, _, rfl⟩ := hrow
  simp

/-! ### The right-hand side of `UpdateColony` vanishes when both rate
constants are zero -/

theorem updateRHS_zero (ls : LinSolver) (pw : ℚ → ℚ → ℚ) (fexp : ℚ → ℚ)
    (c : Colony) (refP : List ℚ) (refA : List (List ℚ))
    (hr1 : c.inParams.r = 0) (hr2 : c.outParams.r = 0)
    (hA : refA.length = c.InnerConduits.length + c.OutflowConduits.length)
    (t : ℚ) (y : List ℚ)
    (hy : y.length = c.InnerConduits.length + c.OutflowConduits.length) :
    updateRHS ls pw fexp c refP refA t y
      = List.replicate (c.InnerConduits.length + c.OutflowConduits.length) 0 := by
  unfold updateRHS updateRHSsolve solvecolony
  simp only [if_true, Option.getD_some]
  rw [dCdt_default_r0 pw _ _ _ hr1, dCdt_default_r0 pw _ _ _ hr2]
  have hdP : (dPof (defaultAfull c (some refA))
      ((ls (sysMatrix (defaultCfull c (some (y.map fexp)))
        (defaultAfull c (some refA))) c.InFlow (some refP)).1)).length
      = c.InnerConduits.length + c.OutflowConduits.length := by
    rw [length_dPof]; exact hA
  rw [List.length_take, List.length_take, List.length_drop, List.length_drop,
    List.length_map, hdP, hy]
  have hmin1 : min (min c.InnerConduits.length
        (c.InnerConduits.length + c.OutflowConduits.length))
      (min c.InnerConduits.length
        (c.InnerConduits.length + c.OutflowConduits.length))
      = c.InnerConduits.length := by omega
  have hmin2 : min (c.InnerConduits.length + c.OutflowConduits.length
        - c.InnerConduits.length)
      (c.InnerConduits.length + c.OutflowConduits.length
        - c.InnerConduits.length)
      = c.OutflowConduits.length := by omega
  rw [hmin1, hmin2, ← List.replicate_add, zipWith_div_replicate_zero]
  rw [List.length_map, hy]
  simp

/-! ### Bounds for the Python `max` / `min` models -/

theorem le_qmax_self (a : ℚ) (xs : List ℚ) : a ≤ qmax a xs := by
  induction xs generalizing a with
  | nil => exact le_refl a
  | cons x xs ih => exact le_trans (le_max_left a x) (ih (max a x))

theorem le_qmax_mem (a : ℚ) (xs : List ℚ) : ∀ x ∈ xs, x ≤ qmax a xs := by
  induction xs generalizing a with
  | nil => intro x hx; simp at hx
  | cons y ys ih =>
    intro x hx
    rcases List.mem_cons.1 hx with h | h
    · subst h
      exact le_trans (le_max_right a x) (le_qmax_self (max a x) ys)
    · exact ih (max a y) x h

theorem qmin_le_self (a : ℚ) (xs : List ℚ) : qmin a xs ≤ a := by
  induction xs generalizing a with
  | nil => exact le_refl a
  | cons x xs ih => exact le_trans (ih (min a x)) (min_le_left a x)

theorem qmin_le_mem (a : ℚ) (xs : List ℚ) : ∀ x ∈ xs, qmin a xs ≤ x := by
  induction xs generalizing a with
  | nil => intro x hx; simp at hx
  | cons y ys ih =>
    intro x hx
    rcases List.mem_cons.1 hx with h | h
    · subst h
      exact le_trans (qmin_le_self (min a x) ys) (min_le_right a x)
    · exact ih (min a y) x h

/-! ### Indexing through `take` and `drop` -/

theorem getD_take (xs : List ℚ) (n i : ℕ) (h : i < n) :
    (xs.take n).getD i 0 = xs.getD i 0 := by
  by_cases hi : i < xs.length
  · rw [List.getD_eq_getElem _ _ (by simp; omega), List.getD_eq_getElem _ _ hi]
    simp [List.getElem_take]
  · rw [List.getD_eq_default _ _ (by simp; omega),
      List.getD_eq_default _ _ (by omega)]

theorem getD_drop (xs : List ℚ) (n i : ℕ) :
    (xs.drop n).getD i 0 = xs.getD (n + i) 0 := by
  by_cases hi : n + i < xs.length
  · rw [List.getD_eq_getElem _ _ (by simp; omega), List.getD_eq_getElem _ _ hi]
    simp [List.getElem_drop]
  · rw [List.getD_eq_default _ _ (by simp; omega),
      List.getD_eq_default _ _ (by omega)]

/-! ### Projections of `solvecolony` (the fields common to both branches) -/

theorem solvecolony_Pressures (ls : LinSolver) (pw : ℚ → ℚ → ℚ) (c : Colony)
    (cf cd : Bool) (kwC : Option (List ℚ)) (kwA : Option (List (List ℚ)))
    (kwP : Option (List ℚ)) :
    (solvecolony ls pw c cf cd kwC kwA kwP).Pressures
      = (ls (sysMatrix (defaultCfull c kwC) (defaultAfull c kwA)) c.InFlow kwP).1 := by
  cases cd <;> rfl

theorem solvecolony_conductivityfull (ls : LinSolver) (pw : ℚ → ℚ → ℚ)
    (c : Colony) (cf cd : Bool) (kwC : Option (List ℚ))
    (kwA : Option (List (List ℚ))) (kwP : Option (List ℚ)) :
    (solvecolony ls pw c cf cd kwC kwA kwP).conductivityfull
      = defaultCfull c kwC := by
  cases cd <;> rfl

theorem solvecolony_IncidenceFull (ls : LinSolver) (pw : ℚ → ℚ → ℚ)
    (c : Colony) (cf cd : Bool) (kwC : Option (List ℚ))
    (kwA : Option (List (List ℚ))) (kwP : Option (List ℚ)) :
    (solvecolony ls pw c cf cd kwC kwA kwP).IncidenceFull
      = defaultAfull c kwA := by
  cases cd <;> rfl

theorem solvecolony_Flows (ls : LinSolver) (pw : ℚ → ℚ → ℚ) (c : Colony)
    (cd : Bool) (kwC : Option (List ℚ)) (kwA : Option (List (List ℚ)))
    (kwP : Option (List ℚ)) :
    (solvecolony ls pw c true cd kwC kwA kwP).Flows
      = some (matVec (scaleRows (defaultCfull c kwC) (defaultAfull c kwA))
          ((ls (sysMatrix (defaultCfull c kwC) (defaultAfull c kwA))
            c.InFlow kwP).1)) := by
  cases cd <;> rfl

/-! ### Entrywise form of the flow computation -/

theorem dotL_smul (a : ℚ) (u v : List ℚ) :
    dotL (u.map (fun x => a * x)) v = a * dotL u v := by
  induction u generalizing v with
  | nil => simp [dotL]
  | cons x xs ih =>
    cases v with
    | nil => simp [dotL]
    | cons y ys =>
      simp only [List.map_cons, dotL, List.zipWith_cons_cons, List.sum_cons]
      have h := ih ys
      simp only [dotL] at h
      rw [h]
      ring

theorem getD_matVec_scaleRows (C : List ℚ) (A : List (List ℚ)) (P : List ℚ)
    (i : ℕ) (h1 : i < C.length) (h2 : i < A.length) :
    (matVec (scaleRows C A) P).getD i 0
      = C.getD i 0 * dotL (A.getD i []) P := by
  induction C generalizing A i with
  | nil => simp at h1
  | cons cHead cTail ih =>
    cases A with
    | nil => simp at h2
    | cons r rs =>
      cases i with
      | zero =>
        show dotL (r.map (fun x => cHead * x)) P = cHead * dotL r P
        exact dotL_smul cHead r P
      | succ i =>
        show (matVec (scaleRows cTail rs) P).getD i 0 = _
        exact ih rs i (by simpa using h1) (by simpa using h2)

/-! ### Concrete fixtures used by witnesses and counterexamples -/

/-- Feedback parameters with zero rate constant. -/
def fbZero : FBParams := ⟨0, 1, 0, 2/3⟩

/-- The 1-by-1-zooid colony with all conductances 1 and inflow -1 per node:
two nodes, two internal conduits (the sequential edge and the wrap edge
coincide for a one-zooid row), one outflow conduit per node. -/
def tinyColony : Colony := Colony.init 1 1 1 1 (-1) fbZero fbZero

/-- The same topology with every conductance zero: its weighted Laplacian is
the zero matrix, so no pressure vector can satisfy the system. -/
def zeroColony : Colony := Colony.init 1 1 0 0 (-1) fbZero fbZero

/-- Concrete instantiation of the abstract floating-point power. -/
def pwFst : ℚ → ℚ → ℚ := fun c _ => c

/-- Solver stand-in returning the right-hand side unchanged (which is the
exact solution of the reference system of `tinyColony`). -/
def lsEcho : LinSolver := fun _ b _ => (b, 0)

/-- Solver for the warm-start counterexample: returns the exact solution of
each of the two systems that arise (the reference system of `tinyColony`
and the system reweighted by the conductances `[1, 1, 3, 1]`). -/
def lsPiece : LinSolver := fun M _ _ =>
  if M = [[(5 : ℚ), -2], [-2, 3]] then ([-5/11, -7/11], 0) else ([-1, -1], 0)

/-- Stand-in for a nonconverged `bicgstab` call: returns an arbitrary vector
together with the nonzero `info` component scipy uses to report failure. -/
def lsFail : LinSolver := fun _ _ _ => ([7, 7], 30)

theorem tinyColony_eq :
    tinyColony = Colony.mk 2 1 [0, 0] [1, 1] [1, 1] [1, 1] [-1, -1]
      [[-1, 1], [-1, 1]] fbZero fbZero := by
  norm_num [tinyColony, Colony.init, npdelete, arange, arangeStep,
    List.range_succ, List.filter_cons, List.zip_cons_cons, List.getD,
    List.replicate_succ]

theorem zeroColony_eq :
    zeroColony = Colony.mk 2 1 [0, 0] [1, 1] [0, 0] [0, 0] [-1, -1]
      [[-1, 1], [-1, 1]] fbZero fbZero := by
  norm_num [zeroColony, Colony.init, npdelete, arange, arangeStep,
    List.range_succ, List.filter_cons, List.zip_cons_cons, List.getD,
    List.replicate_succ]

theorem negIdent_two : negIdent 2 = [[-1, 0], [0, -1]] := by
  norm_num [negIdent, List.range_succ]

theorem sysTiny :
    sysMatrix [1, 1, 1, 1] [[-1, 1], [-1, 1], [-1, 0], [0, -1]]
      = [[3, -2], [-2, 3]] := by
  norm_num [sysMatrix, matMul, transposeM, getCol, scaleRows, matVec, dotL,
    List.range_succ, List.getD]

theorem sysTiny3 :
    sysMatrix [1, 1, 3, 1] [[-1, 1], [-1, 1], [-1, 0], [0, -1]]
      = [[5, -2], [-2, 3]] := by
  norm_num [sysMatrix, matMul, transposeM, getCol, scaleRows, matVec, dotL,
    List.range_succ, List.getD]

theorem sysZero :
    sysMatrix [0, 0, 0, 0] [[-1, 1], [-1, 1], [-1, 0], [0, -1]]
      = [[0, 0], [0, 0]] := by
  norm_num [sysMatrix, matMul, transposeM, getCol, scaleRows, matVec, dotL,
    List.range_succ, List.getD]

/-! ### Claims -/

/-- C1: for every conductance vector `C` (the `conductivityfull` keyword or
`InnerConduits ++ OutflowConduits` by default), extended incidence matrix
`A` and injection vector `q = InFlow`, if the iterative solver's returned
vector satisfies the assembled system `Aᵗ·diag(C)·A·p = q` (bicgstab's
contract at convergence — the "solver tolerance" idealised as exactness),
then the `Pressures` returned by `solvecolony` satisfy that system, and
with flow computation requested the `Flows` field equals `diag(C)·A·p` for
those pressures — both as the matrix product and entrywise
`f_i = C_i * (A_i · p)`. -/
theorem C1_solvecolony_solution (ls : LinSolver) (pw : ℚ → ℚ → ℚ) (c : Colony)
    (calcdCdt : Bool) (kwC : Option (List ℚ)) (kwA : Option (List (List ℚ)))
    (kwP : Option (List ℚ))
    (hconv : matVec (sysMatrix (defaultCfull c kwC) (defaultAfull c kwA))
        ((ls (sysMatrix (defaultCfull c kwC) (defaultAfull c kwA))
          c.InFlow kwP).1) = c.InFlow) :
    matVec (sysMatrix (solvecolony ls pw c true calcdCdt kwC kwA kwP).conductivityfull
        (solvecolony ls pw c true calcdCdt kwC kwA kwP).IncidenceFull)
      (solvecolony ls pw c true calcdCdt kwC kwA kwP).Pressures = c.InFlow
    ∧ (solvecolony ls pw c true calcdCdt kwC kwA kwP).Flows
      = some (matVec
          (scaleRows (solvecolony ls pw c true calcdCdt kwC kwA kwP).conductivityfull
            (solvecolony ls pw c true calcdCdt kwC kwA kwP).IncidenceFull)
          (solvecolony ls pw c true calcdCdt kwC kwA kwP).Pressures)
    ∧ ∀ i, i < (defaultCfull c kwC).length → i < (defaultAfull c kwA).length →
        ((solvecolony ls pw c true calcdCdt kwC kwA kwP).Flows.getD []).getD i 0
          = (defaultCfull c kwC).getD i 0
            * dotL ((defaultAfull c kwA).getD i [])
              ((solvecolony ls pw c true calcdCdt kwC kwA kwP).Pressures) := by
  rw [solvecolony_Pressures, solvecolony_conductivityfull,
    solvecolony_IncidenceFull, solvecolony_Flows]
  refine ⟨hconv, rfl, ?_⟩
  intro i hi1 hi2
  simp only [Option.getD_some]
  exact getD_matVec_scaleRows _ _ _ i hi1 hi2

/-- C1 witness: the one-zooid colony with unit conductances; the solver
returns `[-1, -1]`, which solves its reference system exactly. -/
theorem C1_witness :
    (matVec (sysMatrix (defaultCfull tinyColony none) (defaultAfull tinyColony none))
        ((lsEcho (sysMatrix (defaultCfull tinyColony none)
          (defaultAfull tinyColony none)) tinyColony.InFlow none).1)
      = tinyColony.InFlow)
    ∧ matVec (sysMatrix (solvecolony lsEcho pwFst tinyColony true false none none none).conductivityfull
        (solvecolony lsEcho pwFst tinyColony true false none none none).IncidenceFull)
      (solvecolony lsEcho pwFst tinyColony true false none none none).Pressures
      = tinyColony.InFlow := by
  have hc : matVec (sysMatrix (defaultCfull tinyColony none)
      (defaultAfull tinyColony none))
      ((lsEcho (sysMatrix (defaultCfull tinyColony none)
        (defaultAfull tinyColony none)) tinyColony.InFlow none).1)
      = tinyColony.InFlow := by
    rw [tinyColony_eq]
    show matVec (sysMatrix ([1, 1] ++ [1, 1]) ([[-1, 1], [-1, 1]] ++ negIdent 2))
      _ = _
    rw [negIdent_two]
    norm_num [sysTiny, lsEcho, matVec, dotL]
  exact ⟨hc,
    (C1_solvecolony_solution lsEcho pwFst tinyColony false none none none hc).1⟩

/-- C2: the feedback law returns, elementwise over equal-length inputs,
`S = |b * C^z * dP|` and `dC/dt = r * C^q * (S - 1)`, as two vectors of the
same length as the inputs (the power abstracted by `pw`). -/
theorem C2_dCdt_default_elementwise (pw : ℚ → ℚ → ℚ) (Cs dPs : List ℚ)
    (ps : FBParams) (hlen : Cs.length = dPs.length) :
    (dCdt_default pw Cs dPs ps).1.length = Cs.length
    ∧ (dCdt_default pw Cs dPs ps).2.length = Cs.length
    ∧ ∀ i, i < Cs.length →
        (dCdt_default pw Cs dPs ps).2.getD i 0
          = |ps.b * pw (Cs.getD i 0) ps.z * dPs.getD i 0|
        ∧ (dCdt_default pw Cs dPs ps).1.getD i 0
          = ps.r * pw (Cs.getD i 0) ps.q
            * ((dCdt_default pw Cs dPs ps).2.getD i 0 - 1) := by
  have hS : (dCdt_default pw Cs dPs ps).2.length = Cs.length := by
    show (List.zipWith _ Cs dPs).length = _
    rw [List.length_zipWith]
    omega
  refine ⟨?_, hS, ?_⟩
  · show (List.zipWith _ Cs (List.zipWith _ Cs dPs)).length = _
    rw [List.length_zipWith, List.length_zipWith]
    omega
  · intro i hi
    constructor
    · exact getD_zipWith _ Cs dPs i hi (by omega)
    · exact getD_zipWith _ Cs (dCdt_default pw Cs dPs ps).2 i hi (by omega)

/-- C2 witness: singleton inputs `C = [2]`, `dP = [3]`, parameters
`r = 5, b = 7, z = 11, q = 13` and the power `pw c e = c + e`, giving
`S = |7 * 13 * 3| = 273` and `dC/dt = 5 * 15 * 272 = 20400`. -/
theorem C2_witness :
    ([(2 : ℚ)].length = [(3 : ℚ)].length)
    ∧ (dCdt_default (fun c e => c + e) [2] [3] ⟨5, 7, 11, 13⟩).2.getD 0 0 = 273
    ∧ (dCdt_default (fun c e => c + e) [2] [3] ⟨5, 7, 11, 13⟩).1.getD 0 0
      = 20400 := by
  have h := C2_dCdt_default_elementwise (fun c e => c + e) [2] [3]
    ⟨5, 7, 11, 13⟩ rfl
  have h0 := h.2.2 0 (by norm_num)
  refine ⟨rfl, ?_, ?_⟩
  · rw [h0.1]; norm_num [List.getD]
  · rw [h0.2, h0.1]; norm_num [List.getD]

/-- C9: `UpdateColony` is a pure function of the old state and the horizon:
the method body reads `self` but assigns no attribute, so the state
component of the call is the unchanged receiver — in particular the
internal conductances, outflow conductances and injection vector are those
of the input — and the returned vector is determined by the inputs. -/
theorem C9_UpdateColony_pure (ls : LinSolver) (pw : ℚ → ℚ → ℚ)
    (flog fexp : ℚ → ℚ) (c : Colony) (tmax : ℚ) (hs : List ℚ) :
    (UpdateColonyCall ls pw flog fexp c tmax hs).1 = c
    ∧ (UpdateColonyCall ls pw flog fexp c tmax hs).1.InnerConduits
      = c.InnerConduits
    ∧ (UpdateColonyCall ls pw flog fexp c tmax hs).1.OutflowConduits
      = c.OutflowConduits
    ∧ (UpdateColonyCall ls pw flog fexp c tmax hs).1.InFlow = c.InFlow
    ∧ (UpdateColonyCall ls pw flog fexp c tmax hs).2
      = UpdateColony ls pw flog fexp c tmax hs :=
  ⟨rfl, rfl, rfl, rfl, rfl⟩

/-- C3: for every colony state — any conductance vector, uniform or not
(e.g. after `setouterconductivities` or with conductances written back from
a previous advance), as long as the structural invariants hold (one
incidence row per internal conduit, one outflow conduit per node) — if the
rate constant `r` is zero in both parameter sets, the feedback law returns
identically zero rates, the log-space right-hand side vanishes, every
Dormand–Prince step is the identity for every sequence of adaptive steps
and every horizon, and `UpdateColony` returns the original conductance
vector `InnerConduits ++ OutflowConduits` unchanged.  The hypotheses
require every stored conductance to be positive — zero conductances are
outside the log transform's domain, as the source itself notes (`log(0)`
gives `-inf` and the right-hand side `0/0` gives `nan` in `numpy`) — and
`fexp (flog x) = x` at each stored value, the `exp`/`log` round trip on
that domain. -/
theorem C3_zero_rate_round_trip (ls : LinSolver) (pw : ℚ → ℚ → ℚ)
    (flog fexp : ℚ → ℚ) (c : Colony)
    (hI : c.Incidence.length = c.InnerConduits.length)
    (hO : c.OutflowConduits.length = c.m * c.n)
    (hr1 : c.inParams.r = 0) (hr2 : c.outParams.r = 0)
    (hpos : ∀ x ∈ c.InnerConduits ++ c.OutflowConduits, 0 < x)
    (hlog : ∀ x ∈ c.InnerConduits ++ c.OutflowConduits, fexp (flog x) = x)
    (tmax : ℚ) (hs : List ℚ) :
    UpdateColony ls pw flog fexp c tmax hs
      = c.InnerConduits ++ c.OutflowConduits := by
  have hA : (defaultAfull c none).length
      = c.InnerConduits.length + c.OutflowConduits.length := by
    show (c.Incidence ++ negIdent (c.m * c.n)).length = _
    rw [List.length_append, negIdent_length, hI, hO]
  simp only [UpdateColony]
  rw [solvecolony_conductivityfull, solvecolony_IncidenceFull]
  have hy : ((defaultCfull c none).map flog).length
      = c.InnerConduits.length + c.OutflowConduits.length := by
    show ((c.InnerConduits ++ c.OutflowConduits).map flog).length = _
    rw [List.length_map, List.length_append]
  rw [rkIntegrate_zero _ _
    (fun t y hyL => updateRHS_zero ls pw fexp c _ _ hr1 hr2 hA t y hyL)
    _ hy 0 hs]
  show ((c.InnerConduits ++ c.OutflowConduits).map flog).map fexp = _
  rw [List.map_map]
  have hcongr : (c.InnerConduits ++ c.OutflowConduits).map (fexp ∘ flog)
      = (c.InnerConduits ++ c.OutflowConduits).map id :=
    List.map_congr_left (fun x hx => hlog x hx)
  rw [hcongr, List.map_id]

/-- C3 witness: a colony state with non-uniform conductances (internal
`[1, 2]`, outflow `[3, 1]`, as left behind by an outflow update on the
one-zooid lattice), both rate constants zero, the identity as `log` and
`exp`, and two half steps. -/
theorem C3_witness :
    UpdateColony lsEcho pwFst (fun x => x) (fun x => x)
      (Colony.mk 2 1 [0, 0] [1, 1] [1, 2] [3, 1] [-1, -1]
        [[-1, 1], [-1, 1]] fbZero fbZero) 1 [1/2, 1/2]
      = [1, 2] ++ [3, 1] :=
  C3_zero_rate_round_trip lsEcho pwFst (fun x => x) (fun x => x)
    (Colony.mk 2 1 [0, 0] [1, 1] [1, 2] [3, 1] [-1, -1]
      [[-1, 1], [-1, 1]] fbZero fbZero) rfl rfl rfl rfl
    (by intro x hx; simp only [List.cons_append, List.nil_append,
          List.mem_cons, List.not_mem_nil, or_false] at hx
        rcases hx with rfl | rfl | rfl | rfl <;> norm_num)
    (fun x _ => rfl) 1 [1/2, 1/2]

/-- C5: the code discards the solver's convergence flag and has no failure
channel.  For the all-zero colony the weighted system `Aᵗ·diag(0)·A·p = q`
has no solution at all (`q = [-1, -1]` but the matrix is zero), viz. the
third conjunct; `bicgstab` must then return a nonzero `info`.  Yet
`solvecolony` keeps only component `[0]` of the solver's pair — for every
value of the `info` component the unconverged vector is returned as
`Pressures`, with no error signalled (the result record has no failure
field). -/
theorem C5_silent_solver_failure :
    (∀ k : ℤ, (solvecolony (fun _ _ _ => ([7, 7], k)) pwFst zeroColony
        true false none none none).Pressures = [7, 7])
    ∧ (solvecolony lsFail pwFst zeroColony true false none none
        none).Pressures = [7, 7]
    ∧ ∀ p1 p2 : ℚ,
        matVec (sysMatrix (defaultCfull zeroColony none)
            (defaultAfull zeroColony none)) [p1, p2]
          ≠ zeroColony.InFlow := by
  refine ⟨fun k => rfl, rfl, ?_⟩
  intro p1 p2
  have hC : defaultCfull zeroColony none = [0, 0, 0, 0] := by
    rw [zeroColony_eq]; rfl
  have hA : defaultAfull zeroColony none
      = [[-1, 1], [-1, 1], [-1, 0], [0, -1]] := by
    show zeroColony.Incidence ++ negIdent (zeroColony.m * zeroColony.n) = _
    rw [zeroColony_eq]
    norm_num [negIdent, List.range_succ]
  rw [hC, hA, sysZero, zeroColony_eq]
  simp [matVec, dotL]

/-- C6 (amended): at every evaluation of the integrator's right-hand side,
`solvecolony` is called with the current conductances `exp(lnC)`, the
incidence matrix reused from the reference solve, and the reference
pressures — but the latter only as the warm start `x0` of a fresh
`bicgstab` run on the reweighted system: the pressures used are this fresh
solver output, not the reference pressures themselves. -/
theorem C6_rhs_resolves_with_warm_start (ls : LinSolver) (pw : ℚ → ℚ → ℚ)
    (fexp : ℚ → ℚ) (c : Colony) (lnC : List ℚ) :
    (updateRHSsolve ls pw fexp c
        (solvecolony ls pw c false false none none none).Pressures
        (solvecolony ls pw c false false none none none).IncidenceFull
        lnC).Pressures
      = (ls (sysMatrix (lnC.map fexp)
            (solvecolony ls pw c false false none none none).IncidenceFull)
          c.InFlow
          (some (solvecolony ls pw c false false none none none).Pressures)).1
    ∧ (updateRHSsolve ls pw fexp c
        (solvecolony ls pw c false false none none none).Pressures
        (solvecolony ls pw c false false none none none).IncidenceFull
        lnC).IncidenceFull
      = (solvecolony ls pw c false false none none none).IncidenceFull
    ∧ (updateRHSsolve ls pw fexp c
        (solvecolony ls pw c false false none none none).Pressures
        (solvecolony ls pw c false false none none none).IncidenceFull
        lnC).conductivityfull
      = lnC.map fexp :=
  ⟨rfl, rfl, rfl⟩

/-- C6 counterexample: on the one-zooid colony, with a solver that solves
both arising systems exactly (first two conjuncts — the bicgstab contract),
the pressures used by the right-hand side at the current conductances
`[1, 1, 3, 1]` are `[-5/11, -7/11]`, not the reference pressures
`[-1, -1]` of the `t = 0` solve: pressures are re-solved, not reused. -/
theorem C6_counterexample :
    (matVec (sysMatrix (defaultCfull tinyColony none)
        (defaultAfull tinyColony none))
      (solvecolony lsPiece pwFst tinyColony false false none none
        none).Pressures = tinyColony.InFlow)
    ∧ (matVec (sysMatrix ([1, 1, 3, 1].map (fun x => x))
        (solvecolony lsPiece pwFst tinyColony false false none none
          none).IncidenceFull)
      (updateRHSsolve lsPiece pwFst (fun x => x) tinyColony
        (solvecolony lsPiece pwFst tinyColony false false none none
          none).Pressures
        (solvecolony lsPiece pwFst tinyColony false false none none
          none).IncidenceFull [1, 1, 3, 1]).Pressures = tinyColony.InFlow)
    ∧ (updateRHSsolve lsPiece pwFst (fun x => x) tinyColony
        (solvecolony lsPiece pwFst tinyColony false false none none
          none).Pressures
        (solvecolony lsPiece pwFst tinyColony false false none none
          none).IncidenceFull [1, 1, 3, 1]).Pressures
      ≠ (solvecolony lsPiece pwFst tinyColony false false none none
          none).Pressures := by
  have hC : defaultCfull tinyColony none = [1, 1, 1, 1] := by
    rw [tinyColony_eq]; rfl
  have hA : defaultAfull tinyColony none
      = [[-1, 1], [-1, 1], [-1, 0], [0, -1]] := by
    show tinyColony.Incidence ++ negIdent (tinyColony.m * tinyColony.n) = _
    rw [tinyColony_eq]
    norm_num [negIdent, List.range_succ]
  have hsys0 : sysMatrix (defaultCfull tinyColony none)
      (defaultAfull tinyColony none) = [[3, -2], [-2, 3]] := by
    rw [hC, hA, sysTiny]
  have href : (solvecolony lsPiece pwFst tinyColony false false none none
      none).Pressures = [-1, -1] := by
    rw [solvecolony_Pressures, hsys0]
    norm_num [lsPiece]
  have hrhs : (updateRHSsolve lsPiece pwFst (fun x => x) tinyColony
      (solvecolony lsPiece pwFst tinyColony false false none none
        none).Pressures
      (solvecolony lsPiece pwFst tinyColony false false none none
        none).IncidenceFull [1, 1, 3, 1]).Pressures = [-5/11, -7/11] := by
    rw [updateRHSsolve, solvecolony_Pressures]
    show (lsPiece (sysMatrix (defaultCfull tinyColony
      (some ([1, 1, 3, 1].map (fun x => x))))
      (defaultAfull tinyColony (some (defaultAfull tinyColony none))))
      tinyColony.InFlow _).1 = _
    have : defaultCfull tinyColony (some ([1, 1, 3, 1].map (fun x => x)))
        = [1, 1, 3, 1] := rfl
    rw [this]
    show (lsPiece (sysMatrix [1, 1, 3, 1] (defaultAfull tinyColony none))
      tinyColony.InFlow _).1 = _
    rw [hA, sysTiny3]
    norm_num [lsPiece]
  refine ⟨?_, ?_, ?_⟩
  · rw [href, hsys0, tinyColony_eq]
    norm_num [matVec, dotL]
  · rw [hrhs, solvecolony_IncidenceFull, hA, tinyColony_eq]
    show matVec (sysMatrix [1, 1, 3, 1] _) _ = _
    rw [sysTiny3]
    norm_num [matVec, dotL]
  · rw [hrhs, href]
    norm_num

/-- C7: for a lattice built from positive width `nz` and height `mz`, the
node count `m*n` equals `2*nz*mz`; the outflow conductance vector has one
entry per node; and the extended incidence matrix assembled by the solver
has exactly internal-conduit-count plus node-count rows, each of length
node-count. -/
theorem C7_lattice_topology (ls : LinSolver) (pw : ℚ → ℚ → ℚ) (nz mz : ℕ)
    (h1 : 1 ≤ nz) (h2 : 1 ≤ mz) (ic oc qv : ℚ) (pI pO : FBParams) :
    (Colony.init nz mz ic oc qv pI pO).m * (Colony.init nz mz ic oc qv pI pO).n
      = 2 * nz * mz
    ∧ (Colony.init nz mz ic oc qv pI pO).OutflowConduits.length = 2 * nz * mz
    ∧ (solvecolony ls pw (Colony.init nz mz ic oc qv pI pO) false false
        none none none).IncidenceFull.length
      = (Colony.init nz mz ic oc qv pI pO).InnerConduits.length + 2 * nz * mz
    ∧ ∀ row ∈ (solvecolony ls pw (Colony.init nz mz ic oc qv pI pO) false false
        none none none).IncidenceFull, row.length = 2 * nz * mz := by
  have hmn : (Colony.init nz mz ic oc qv pI pO).m
      * (Colony.init nz mz ic oc qv pI pO).n = 2 * nz * mz := by
    show mz * (nz * 2) = 2 * nz * mz
    ring
  refine ⟨hmn, ?_, ?_, ?_⟩
  · rw [init_Outflow_length, hmn]
  · rw [solvecolony_IncidenceFull]
    show ((Colony.init nz mz ic oc qv pI pO).Incidence
      ++ negIdent ((Colony.init nz mz ic oc qv pI pO).m
        * (Colony.init nz mz ic oc qv pI pO).n)).length = _
    rw [List.length_append, negIdent_length,
      init_Incidence_length nz mz h1 h2 ic oc qv pI pO, hmn]
  · rw [solvecolony_IncidenceFull]
    intro row hrow
    rcases List.mem_append.1 hrow with h | h
    · rw [init_row_length nz mz ic oc qv pI pO row h, hmn]
    · rw [negIdent_row_length _ row h, hmn]

/-- C7 witness: the 1-by-1 lattice has 2 nodes, 2 outflow conduits, and a
4-by-2 extended incidence matrix (2 internal conduits plus 2 nodes). -/
theorem C7_witness :
    (Colony.init 1 1 1 1 (-1) fbZero fbZero).m
        * (Colony.init 1 1 1 1 (-1) fbZero fbZero).n = 2 * 1 * 1
    ∧ (Colony.init 1 1 1 1 (-1) fbZero fbZero).OutflowConduits.length
      = 2 * 1 * 1
    ∧ (solvecolony lsEcho pwFst (Colony.init 1 1 1 1 (-1) fbZero fbZero)
        false false none none none).IncidenceFull.length
      = (Colony.init 1 1 1 1 (-1) fbZero fbZero).InnerConduits.length
        + 2 * 1 * 1
    ∧ ∀ row ∈ (solvecolony lsEcho pwFst (Colony.init 1 1 1 1 (-1) fbZero
        fbZero) false false none none none).IncidenceFull,
        row.length = 2 * 1 * 1 :=
  C7_lattice_topology lsEcho pwFst 1 1 (by norm_num) (by norm_num) 1 1 (-1)
    fbZero fbZero

/-- C4 (amended): the validation the setter actually enforces accepts
`idx = m*n`.  For every call in which the lists differ in length, or some
index is not an `int`, or some index is negative or strictly greater than
`m*n`, or some new conductance is negative, the operation performs no
update at all and reports the violated precondition (print-and-return,
leaving the receiver unchanged).  An index equal to `m*n` passes all the
checks and instead raises an uncaught `IndexError` after the earlier
indices have already been written (see the counterexample). -/
theorem C4_validation_rejects (c : Colony) (nodeinds news : List PyNum)
    (hv : news.length ≠ nodeinds.length
      ∨ (∃ i ∈ nodeinds, i.isInt = false ∨ i.val < 0
          ∨ ((c.m * c.n : ℕ) : ℚ) < i.val)
      ∨ ∃ v ∈ news, v.val < 0) :
    ∃ msg, setouterconductivities c nodeinds news
      = SetResult.rejected msg c := by
  unfold setouterconductivities
  split
  · exact ⟨_, rfl⟩
  · rename_i hlen
    push_neg at hlen
    split
    · exfalso
      rcases hv with h | h | h
      · exact h hlen
      · obtain ⟨i, hmem, _⟩ := h; simp at hmem
      · obtain ⟨v, hmem, _⟩ := h
        rw [List.length_nil, List.length_eq_zero] at hlen
        subst hlen; simp at hmem
    · rename_i i0 irest
      split
      · exact ⟨_, rfl⟩
      · rename_i hmax
        split
        · exact ⟨_, rfl⟩
        · rename_i hminc
          split
          · exact ⟨_, rfl⟩
          · rename_i hint
            split
            · exact ⟨_, rfl⟩
            · rename_i hneg
              exfalso
              push_neg at hmax hminc
              simp only [List.any_eq_true, decide_eq_true_eq, not_exists,
                not_and] at hint hneg
              rcases hv with h | h | h
              · exact h hlen
              · obtain ⟨i, hmem, hbad⟩ := h
                have hub : i.val ≤ ((c.m * c.n : ℕ) : ℚ) := by
                  rcases List.mem_cons.1 hmem with rfl | hm
                  · exact le_trans (le_qmax_self _ _) hmax
                  · exact le_trans
                      (le_qmax_mem i0.val (irest.map PyNum.val) i.val
                        (List.mem_map_of_mem PyNum.val hm)) hmax
                have hlb : 0 ≤ i.val := by
                  rcases List.mem_cons.1 hmem with rfl | hm
                  · exact le_trans hminc (qmin_le_self _ _)
                  · exact le_trans hminc
                      (qmin_le_mem i0.val (irest.map PyNum.val) i.val
                        (List.mem_map_of_mem PyNum.val hm))
                have hii := hint i hmem
                rcases hbad with hb | hb | hb
                · rw [hb] at hii; simp at hii
                · exact absurd hb (not_lt.2 hlb)
                · exact absurd hb (not_lt.2 hub)
              · obtain ⟨v, hmem, hbad⟩ := h
                exact hneg v hmem hbad

/-- C4 witness: the spec's own rejection test — updating nodes `[0, 1]`
with values `[-1, 2]` (a negative conductance) is refused with the
conductances unchanged. -/
theorem C4_witness :
    ∃ msg, setouterconductivities tinyColony [PyNum.int 0, PyNum.int 1]
        [PyNum.int (-1), PyNum.int 2]
      = SetResult.rejected msg tinyColony :=
  C4_validation_rejects tinyColony [PyNum.int 0, PyNum.int 1]
    [PyNum.int (-1), PyNum.int 2]
    (Or.inr (Or.inr ⟨PyNum.int (-1), by norm_num, by norm_num [PyNum.val]⟩))

/-- C4 counterexample: indices `[0, 2]` on the two-node colony.  Index 2
equals `m*n` and is outside the valid range `0 ≤ idx < 2`, so the claim
demands a reported no-op; instead the call passes validation (only
`idx > m*n` is rejected), writes index 0, and dies with an uncaught
`IndexError`, leaving the partially updated vector `[5, 1]` — the update
is neither absent nor reported. -/
theorem C4_counterexample :
    (setouterconductivities tinyColony [PyNum.int 0, PyNum.int 2]
        [PyNum.float 5, PyNum.float 5]).isRejected = false
    ∧ (setouterconductivities tinyColony [PyNum.int 0, PyNum.int 2]
        [PyNum.float 5, PyNum.float 5]).isOk = false
    ∧ (setouterconductivities tinyColony [PyNum.int 0, PyNum.int 2]
        [PyNum.float 5, PyNum.float 5]).colony.OutflowConduits = [5, 1]
    ∧ tinyColony.OutflowConduits = [1, 1] := by
  rw [tinyColony_eq]
  norm_num [setouterconductivities, outflowLoop, qmax, qmin, PyNum.val,
    PyNum.isInt, PyNum.toIdx, SetResult.colony, SetResult.isRejected,
    SetResult.isOk]

/-- Elementwise form of the feedback law (shared by the alignment claims). -/
theorem dCdt_default_getD (pw : ℚ → ℚ → ℚ) (Cs dPs : List ℚ) (ps : FBParams)
    (i : ℕ) (h1 : i < Cs.length) (h2 : i < dPs.length) :
    (dCdt_default pw Cs dPs ps).2.getD i 0
      = |ps.b * pw (Cs.getD i 0) ps.z * dPs.getD i 0|
    ∧ (dCdt_default pw Cs dPs ps).1.getD i 0
      = ps.r * pw (Cs.getD i 0) ps.q
        * (|ps.b * pw (Cs.getD i 0) ps.z * dPs.getD i 0| - 1) := by
  have hS : (dCdt_default pw Cs dPs ps).2.getD i 0
      = |ps.b * pw (Cs.getD i 0) ps.z * dPs.getD i 0| :=
    getD_zipWith _ Cs dPs i h1 h2
  refine ⟨hS, ?_⟩
  have hD := getD_zipWith (fun c s => ps.r * pw c ps.q * (s - 1)) Cs
    (dCdt_default pw Cs dPs ps).2 i h1
    (by show i < (List.zipWith _ Cs dPs).length
        rw [List.length_zipWith]; omega)
  rw [show (dCdt_default pw Cs dPs ps).1
      = List.zipWith (fun c s => ps.r * pw c ps.q * (s - 1)) Cs
        (dCdt_default pw Cs dPs ps).2 from rfl, hD, hS]

/-- Concatenated feedback output: lengths and index-for-index alignment
with the concatenated conductance vector, the inner parameter set applying
below the split point and the outer parameter set above it. -/
theorem feedback_concat_getD (pw : ℚ → ℚ → ℚ) (Ci Co dP : List ℚ)
    (pI pO : FBParams) (hdP : dP.length = Ci.length + Co.length) :
    ((dCdt_default pw Ci (dP.take Ci.length) pI).1
      ++ (dCdt_default pw Co (dP.drop Ci.length) pO).1).length
      = Ci.length + Co.length
    ∧ ((dCdt_default pw Ci (dP.take Ci.length) pI).2
      ++ (dCdt_default pw Co (dP.drop Ci.length) pO).2).length
      = Ci.length + Co.length
    ∧ ∀ i, i < Ci.length + Co.length →
        ((dCdt_default pw Ci (dP.take Ci.length) pI).1
          ++ (dCdt_default pw Co (dP.drop Ci.length) pO).1).getD i 0
          = (dCdt_default pw [(Ci ++ Co).getD i 0] [dP.getD i 0]
              (if i < Ci.length then pI else pO)).1.getD 0 0
        ∧ ((dCdt_default pw Ci (dP.take Ci.length) pI).2
          ++ (dCdt_default pw Co (dP.drop Ci.length) pO).2).getD i 0
          = (dCdt_default pw [(Ci ++ Co).getD i 0] [dP.getD i 0]
              (if i < Ci.length then pI else pO)).2.getD 0 0 := by
  have hti : (dP.take Ci.length).length = Ci.length := by
    rw [List.length_take]; omega
  have hto : (dP.drop Ci.length).length = Co.length := by
    rw [List.length_drop]; omega
  have hlin1 : (dCdt_default pw Ci (dP.take Ci.length) pI).1.length
      = Ci.length := by
    show (List.zipWith _ _ (List.zipWith _ _ _)).length = _
    rw [List.length_zipWith, List.length_zipWith]
    omega
  have hlin2 : (dCdt_default pw Ci (dP.take Ci.length) pI).2.length
      = Ci.length := by
    show (List.zipWith _ _ _).length = _
    rw [List.length_zipWith]
    omega
  have hlout1 : (dCdt_default pw Co (dP.drop Ci.length) pO).1.length
      = Co.length := by
    show (List.zipWith _ _ (List.zipWith _ _ _)).length = _
    rw [List.length_zipWith, List.length_zipWith]
    omega
  have hlout2 : (dCdt_default pw Co (dP.drop Ci.length) pO).2.length
      = Co.length := by
    show (List.zipWith _ _ _).length = _
    rw [List.length_zipWith]
    omega
  refine ⟨by rw [List.length_append, hlin1, hlout1],
    by rw [List.length_append, hlin2, hlout2], ?_⟩
  intro i hi
  by_cases hcase : i < Ci.length
  · rw [if_pos hcase]
    have hca : (Ci ++ Co).getD i 0 = Ci.getD i 0 :=
      List.getD_append Ci Co 0 i hcase
    have hdpt : (dP.take Ci.length).getD i 0 = dP.getD i 0 :=
      getD_take dP Ci.length i hcase
    have hinner := dCdt_default_getD pw Ci (dP.take Ci.length) pI i hcase
      (by rw [hti]; exact hcase)
    constructor
    · rw [List.getD_append _ _ _ _ (by rw [hlin1]; exact hcase), hinner.2,
        hca, hdpt]
      rfl
    · rw [List.getD_append _ _ _ _ (by rw [hlin2]; exact hcase), hinner.1,
        hca, hdpt]
      rfl
  · rw [if_neg hcase]
    have hle : Ci.length ≤ i := by omega
    have hca : (Ci ++ Co).getD i 0 = Co.getD (i - Ci.length) 0 :=
      List.getD_append_right Ci Co 0 i hle
    have hdpd : (dP.drop Ci.length).getD (i - Ci.length) 0 = dP.getD i 0 := by
      rw [getD_drop]
      congr 1
      omega
    have houter := dCdt_default_getD pw Co (dP.drop Ci.length) pO
      (i - Ci.length) (by omega) (by rw [hto]; omega)
    constructor
    · rw [List.getD_append_right _ _ _ _ (by rw [hlin1]; exact hle), hlin1,
        houter.2, hca, hdpd]
      rfl
    · rw [List.getD_append_right _ _ _ _ (by rw [hlin2]; exact hle), hlin2,
        houter.1, hca, hdpd]
      rfl

/-- C8: with feedback computation enabled, the `S` and `dC/dt` outputs are
the concatenation of the internal-conduit results followed by the
outflow-conduit results; they have the same length as the conductance
vector used, and entry `i` of each is the feedback law applied to entry `i`
of that conductance vector and entry `i` of the pressure-difference vector
(with the internal parameter set below the split point and the outflow one
above it). -/
theorem C8_feedback_alignment (ls : LinSolver) (pw : ℚ → ℚ → ℚ) (nz mz : ℕ)
    (h1 : 1 ≤ nz) (h2 : 1 ≤ mz) (ic oc qv : ℚ) (pI pO : FBParams)
    (cf : Bool) (kwC : Option (List ℚ)) (kwP : Option (List ℚ))
    (hlen : (defaultCfull (Colony.init nz mz ic oc qv pI pO) kwC).length
      = (Colony.init nz mz ic oc qv pI pO).InnerConduits.length
        + (Colony.init nz mz ic oc qv pI pO).m
          * (Colony.init nz mz ic oc qv pI pO).n) :
    (solvecolony ls pw (Colony.init nz mz ic oc qv pI pO) cf true kwC none
        kwP).dCdt
      = some ((dCdt_default pw
          ((defaultCfull (Colony.init nz mz ic oc qv pI pO) kwC).take
            (Colony.init nz mz ic oc qv pI pO).InnerConduits.length)
          ((dPof (defaultAfull (Colony.init nz mz ic oc qv pI pO) none)
            (solvecolony ls pw (Colony.init nz mz ic oc qv pI pO) cf true kwC
              none kwP).Pressures).take
            (Colony.init nz mz ic oc qv pI pO).InnerConduits.length) pI).1
        ++ (dCdt_default pw
          ((defaultCfull (Colony.init nz mz ic oc qv pI pO) kwC).drop
            (Colony.init nz mz ic oc qv pI pO).InnerConduits.length)
          ((dPof (defaultAfull (Colony.init nz mz ic oc qv pI pO) none)
            (solvecolony ls pw (Colony.init nz mz ic oc qv pI pO) cf true kwC
              none kwP).Pressures).drop
            (Colony.init nz mz ic oc qv pI pO).InnerConduits.length) pO).1)
    ∧ ((solvecolony ls pw (Colony.init nz mz ic oc qv pI pO) cf true kwC none
        kwP).dCdt.getD []).length
      = (defaultCfull (Colony.init nz mz ic oc qv pI pO) kwC).length
    ∧ ((solvecolony ls pw (Colony.init nz mz ic oc qv pI pO) cf true kwC none
        kwP).S.getD []).length
      = (defaultCfull (Colony.init nz mz ic oc qv pI pO) kwC).length
    ∧ ∀ i, i < (defaultCfull (Colony.init nz mz ic oc qv pI pO) kwC).length →
        ((solvecolony ls pw (Colony.init nz mz ic oc qv pI pO) cf true kwC
            none kwP).dCdt.getD []).getD i 0
          = (dCdt_default pw
              [(defaultCfull (Colony.init nz mz ic oc qv pI pO) kwC).getD i 0]
              [(dPof (defaultAfull (Colony.init nz mz ic oc qv pI pO) none)
                (solvecolony ls pw (Colony.init nz mz ic oc qv pI pO) cf true
                  kwC none kwP).Pressures).getD i 0]
              (if i < (Colony.init nz mz ic oc qv pI pO).InnerConduits.length
                then pI else pO)).1.getD 0 0
        ∧ ((solvecolony ls pw (Colony.init nz mz ic oc qv pI pO) cf true kwC
            none kwP).S.getD []).getD i 0
          = (dCdt_default pw
              [(defaultCfull (Colony.init nz mz ic oc qv pI pO) kwC).getD i 0]
              [(dPof (defaultAfull (Colony.init nz mz ic oc qv pI pO) none)
                (solvecolony ls pw (Colony.init nz mz ic oc qv pI pO) cf true
                  kwC none kwP).Pressures).getD i 0]
              (if i < (Colony.init nz mz ic oc qv pI pO).InnerConduits.length
                then pI else pO)).2.getD 0 0 := by
  have hshape :
      (solvecolony ls pw (Colony.init nz mz ic oc qv pI pO) cf true kwC none
          kwP).dCdt
        = some ((dCdt_default pw
            ((defaultCfull (Colony.init nz mz ic oc qv pI pO) kwC).take
              (Colony.init nz mz ic oc qv pI pO).InnerConduits.length)
            ((dPof (defaultAfull (Colony.init nz mz ic oc qv pI pO) none)
              (solvecolony ls pw (Colony.init nz mz ic oc qv pI pO) cf true
                kwC none kwP).Pressures).take
              (Colony.init nz mz ic oc qv pI pO).InnerConduits.length) pI).1
          ++ (dCdt_default pw
            ((defaultCfull (Colony.init nz mz ic oc qv pI pO) kwC).drop
              (Colony.init nz mz ic oc qv pI pO).InnerConduits.length)
            ((dPof (defaultAfull (Colony.init nz mz ic oc qv pI pO) none)
              (solvecolony ls pw (Colony.init nz mz ic oc qv pI pO) cf true
                kwC none kwP).Pressures).drop
              (Colony.init nz mz ic oc qv pI pO).InnerConduits.length) pO).1)
      ∧ (solvecolony ls pw (Colony.init nz mz ic oc qv pI pO) cf true kwC none
          kwP).S
        = some ((dCdt_default pw
            ((defaultCfull (Colony.init nz mz ic oc qv pI pO) kwC).take
              (Colony.init nz mz ic oc qv pI pO).InnerConduits.length)
            ((dPof (defaultAfull (Colony.init nz mz ic oc qv pI pO) none)
              (solvecolony ls pw (Colony.init nz mz ic oc qv pI pO) cf true
                kwC none kwP).Pressures).take
              (Colony.init nz mz ic oc qv pI pO).InnerConduits.length) pI).2
          ++ (dCdt_default pw
            ((defaultCfull (Colony.init nz mz ic oc qv pI pO) kwC).drop
              (Colony.init nz mz ic oc qv pI pO).InnerConduits.length)
            ((dPof (defaultAfull (Colony.init nz mz ic oc qv pI pO) none)
              (solvecolony ls pw (Colony.init nz mz ic oc qv pI pO) cf true
                kwC none kwP).Pressures).drop
              (Colony.init nz mz ic oc qv pI pO).InnerConduits.length) pO).2) := by
    cases kwC with
    | some v => exact ⟨rfl, rfl⟩
    | none =>
      have hD : defaultCfull (Colony.init nz mz ic oc qv pI pO) none
          = (Colony.init nz mz ic oc qv pI pO).InnerConduits
            ++ (Colony.init nz mz ic oc qv pI pO).OutflowConduits := rfl
      rw [hD, List.take_left, List.drop_left]
      exact ⟨rfl, rfl⟩
  have hdPlen : (dPof (defaultAfull (Colony.init nz mz ic oc qv pI pO) none)
      (solvecolony ls pw (Colony.init nz mz ic oc qv pI pO) cf true kwC none
        kwP).Pressures).length
      = (Colony.init nz mz ic oc qv pI pO).InnerConduits.length
        + (Colony.init nz mz ic oc qv pI pO).m
          * (Colony.init nz mz ic oc qv pI pO).n := by
    rw [length_dPof]
    show ((Colony.init nz mz ic oc qv pI pO).Incidence
      ++ negIdent ((Colony.init nz mz ic oc qv pI pO).m
        * (Colony.init nz mz ic oc qv pI pO).n)).length = _
    rw [List.length_append, negIdent_length,
      init_Incidence_length nz mz h1 h2 ic oc qv pI pO]
  have htakelen : ((defaultCfull (Colony.init nz mz ic oc qv pI pO) kwC).take
      (Colony.init nz mz ic oc qv pI pO).InnerConduits.length).length
      = (Colony.init nz mz ic oc qv pI pO).InnerConduits.length := by
    rw [List.length_take]; omega
  have hdroplen : ((defaultCfull (Colony.init nz mz ic oc qv pI pO) kwC).drop
      (Colony.init nz mz ic oc qv pI pO).InnerConduits.length).length
      = (Colony.init nz mz ic oc qv pI pO).m
        * (Colony.init nz mz ic oc qv pI pO).n := by
    rw [List.length_drop]; omega
  have hcc := feedback_concat_getD pw
    ((defaultCfull (Colony.init nz mz ic oc qv pI pO) kwC).take
      (Colony.init nz mz ic oc qv pI pO).InnerConduits.length)
    ((defaultCfull (Colony.init nz mz ic oc qv pI pO) kwC).drop
      (Colony.init nz mz ic oc qv pI pO).InnerConduits.length)
    (dPof (defaultAfull (Colony.init nz mz ic oc qv pI pO) none)
      (solvecolony ls pw (Colony.init nz mz ic oc qv pI pO) cf true kwC none
        kwP).Pressures) pI pO
    (by rw [hdPlen, htakelen, hdroplen])
  rw [htakelen] at hcc
  rw [List.take_append_drop] at hcc
  refine ⟨hshape.1, ?_, ?_, ?_⟩
  · rw [hshape.1]
    show ((dCdt_default pw _ _ pI).1 ++ (dCdt_default pw _ _ pO).1).length = _
    rw [hcc.1]
    omega
  · rw [hshape.2]
    show ((dCdt_default pw _ _ pI).2 ++ (dCdt_default pw _ _ pO).2).length = _
    rw [hcc.2.1]
    omega
  · intro i hi
    have hi2 : i < ((defaultCfull (Colony.init nz mz ic oc qv pI pO)
        kwC).take (Colony.init nz mz ic oc qv pI pO).InnerConduits.length).length
        + ((defaultCfull (Colony.init nz mz ic oc qv pI pO) kwC).drop
          (Colony.init nz mz ic oc qv pI pO).InnerConduits.length).length := by
      rw [htakelen, hdroplen]; omega
    rw [htakelen] at hi2
    have h3 := hcc.2.2 i hi2
    constructor
    · rw [hshape.1]
      show ((dCdt_default pw _ _ pI).1 ++ (dCdt_default pw _ _ pO).1).getD i 0
        = _
      exact h3.1
    · rw [hshape.2]
      show ((dCdt_default pw _ _ pI).2 ++ (dCdt_default pw _ _ pO).2).getD i 0
        = _
      exact h3.2

/-- C8 witness: the default solve of the one-zooid colony; the `dC/dt`
output has the length of the conductance vector `internal ++ outflow`. -/
theorem C8_witness :
    ((solvecolony lsEcho pwFst (Colony.init 1 1 1 1 (-1) fbZero fbZero) false
        true none none none).dCdt.getD []).length
      = (defaultCfull (Colony.init 1 1 1 1 (-1) fbZero fbZero) none).length
    ∧ ((solvecolony lsEcho pwFst (Colony.init 1 1 1 1 (-1) fbZero fbZero)
        false true none none none).S.getD []).length
      = (defaultCfull (Colony.init 1 1 1 1 (-1) fbZero fbZero) none).length := by
  have h := C8_feedback_alignment lsEcho pwFst 1 1 (by norm_num) (by norm_num)
    1 1 (-1) fbZero fbZero false none none (by decide)
  exact ⟨h.2.1, h.2.2.1⟩

/-- C10: calling the setter with two empty lists is neither accepted as a
valid empty update nor reported as a precondition failure: the guard chain
reaches `max(nodeinds)`, which raises `ValueError` on an empty sequence,
and the exception escapes; the conductances are untouched. -/
theorem C10_empty_lists_raise (c : Colony) :
    setouterconductivities c [] []
      = SetResult.exn "ValueError: max() arg is an empty sequence" c
    ∧ (setouterconductivities c [] []).isOk = false
    ∧ (setouterconductivities c [] []).isRejected = false
    ∧ (setouterconductivities c [] []).colony.OutflowConduits
      = c.OutflowConduits := by
  refine ⟨rfl, rfl, rfl, rfl⟩

end Bryozoan
